import Mathlib

/-!
Verification of the LewisAI-Tearing storyboard core.

The numeric pipeline of the repository is embedded shallowly:
- `calculateFrameDifference` (utils/imageProcessing, frame-difference metric),
- `boxBlur` and the sketch-synthesis per-pixel pipeline (`applySketchEffect`),
- `wrapText` (storyboard caption wrapping),
- the keyframe extraction loop of `VideoProcessor.processInterval`,
- the pagination / shot numbering / cover-fit of `generateStoryboardImages`,
- the CSV row construction of `handleExportTable`.

JavaScript floating-point arithmetic is embedded as exact rational
arithmetic (`ℚ`); every input appearing in a theorem below makes the
float computation exact, so the embedding is faithful there.  A JS
division whose denominator is zero yields NaN; results that can be
non-finite are embedded as `Option ℚ` with `none` standing for NaN.
-/

namespace StoryboardCore

/-- `|a - b|` on byte values, as in `Math.abs(data1[i] - data2[i])`. -/
def absDiff (a b : ℕ) : ℕ := max a b - min a b

/-- Number of iterations of the sampling loop `for (i = 0; i < L; i += 16)`:
one per index `i ∈ {0, 16, 32, …} ∩ [0, L)`. -/
def numSampled (L : ℕ) : ℕ := (L + 15) / 16

/-- The accumulated `diff` of `calculateFrameDifference`: for each sampled
index `i = 16·j < L` it adds `|R₁-R₂| + |G₁-G₂| + |B₁-B₂|` read at
`i`, `i+1`, `i+2`.  Reads are embedded with `List.getD` (default 0); the
source reads typed-array entries, which are always in range for the RGBA
buffers (length divisible by 4) the metric is applied to. -/
def frameDiffSum (d1 d2 : List ℕ) : ℕ :=
  ∑ j ∈ Finset.range (numSampled d1.length),
    (absDiff (d1.getD (16 * j) 0) (d2.getD (16 * j) 0)
      + absDiff (d1.getD (16 * j + 1) 0) (d2.getD (16 * j + 1) 0)
      + absDiff (d1.getD (16 * j + 2) 0) (d2.getD (16 * j + 2) 0))

/-- `calculateFrameDifference` (src/unnamed/part_000 lines 5–18):
`diff / (data1.length / 4)`.  For a zero-length buffer the source computes
`0 / 0`, which is NaN in JavaScript; that non-finite outcome is embedded
as `none`.  For positive length the result is the exact rational value. -/
def calculateFrameDifference (d1 d2 : List ℕ) : Option ℚ :=
  if d1.length = 0 then none
  else some ((frameDiffSum d1 d2 : ℚ) / ((d1.length : ℚ) / 4))

lemma getD_replicate_lt {L i : ℕ} (v : ℕ) (h : i < L) :
    (List.replicate L v).getD i 0 = v := by
  simp [List.getD_eq_getElem?_getD, List.getElem?_replicate, h]

lemma frameDiffSum_all255_all0 (L : ℕ) (h4 : 4 ∣ L) :
    frameDiffSum (List.replicate L 255) (List.replicate L 0)
      = 765 * numSampled L := by
  unfold frameDiffSum
  rw [List.length_replicate]
  have hterm : ∀ j ∈ Finset.range (numSampled L),
      (absDiff ((List.replicate L 255).getD (16 * j) 0)
          ((List.replicate L 0).getD (16 * j) 0)
        + absDiff ((List.replicate L 255).getD (16 * j + 1) 0)
          ((List.replicate L 0).getD (16 * j + 1) 0)
        + absDiff ((List.replicate L 255).getD (16 * j + 2) 0)
          ((List.replicate L 0).getD (16 * j + 2) 0)) = 765 := by
    intro j hj
    have hj' : j < numSampled L := Finset.mem_range.mp hj
    have hlt : 16 * j + 2 < L := by
      unfold numSampled at hj'
      omega
    rw [getD_replicate_lt 255 (show 16 * j < L by omega),
      getD_replicate_lt 0 (show 16 * j < L by omega),
      getD_replicate_lt 255 (show 16 * j + 1 < L by omega),
      getD_replicate_lt 0 (show 16 * j + 1 < L by omega),
      getD_replicate_lt 255 (show 16 * j + 2 < L by omega),
      getD_replicate_lt 0 (show 16 * j + 2 < L by omega)]
    decide
  rw [Finset.sum_congr rfl hterm, Finset.sum_const, Finset.card_range,
    smul_eq_mul, Nat.mul_comm]

lemma frameDiff_all255_general (L : ℕ) (hL : 0 < L) (h4 : 4 ∣ L) :
    calculateFrameDifference (List.replicate L 255) (List.replicate L 0)
      = some ((765 * (numSampled L : ℚ) * 4) / (L : ℚ)) := by
  unfold calculateFrameDifference
  rw [if_neg (by simp [List.length_replicate]; omega)]
  rw [frameDiffSum_all255_all0 L h4]
  congr 1
  rw [List.length_replicate]
  push_cast
  rw [div_div_eq_mul_div]

/-- C1 (counterexample): for buffers of length 16 (all-255 vs all-0) the
metric returns 765/4 = 191.25, not 765 — the claimed length-independent
value 3 × 255 is wrong for the code's normalization. -/
theorem frameDiff_765_cex :
    calculateFrameDifference (List.replicate 16 255) (List.replicate 16 0)
      ≠ some 765 := by
  rw [frameDiff_all255_general 16 (by norm_num) (by norm_num)]
  intro h
  have h' := Option.some.inj h
  norm_num [numSampled] at h'

/-- C1 (amended): for all-255 vs all-0 RGBA buffers of length L (L > 0 a
multiple of 4), `calculateFrameDifference` returns
`765 · ⌈L/16⌉ · 4 / L`: the sampled channel differences sum to
765 per sampled pixel but the sum is divided by the total pixel count
L/4, so the result does depend on the length (765 only at L = 4;
191.25 for any L divisible by 16). -/
theorem frameDiff_all255_vs_all0 (L : ℕ) (hL : 0 < L) (h4 : 4 ∣ L) :
    calculateFrameDifference (List.replicate L 255) (List.replicate L 0)
      = some ((765 * (numSampled L : ℚ) * 4) / (L : ℚ)) :=
  frameDiff_all255_general L hL h4

/-- C1 (witness): the amended formula instantiated at L = 16, where it
evaluates to 765/4 = 191.25. -/
theorem frameDiff_all255_vs_all0_witness :
    ((0 : ℕ) < 16 ∧ 4 ∣ 16) ∧
      calculateFrameDifference (List.replicate 16 255) (List.replicate 16 0)
        = some ((765 * (numSampled 16 : ℚ) * 4) / (16 : ℚ)) :=
  ⟨⟨by decide, by decide⟩, frameDiff_all255_vs_all0 16 (by decide) (by decide)⟩

/-- C4: for zero-length buffers the source has no guard: it computes
`0 / (0 / 4) = 0 / 0`, which is NaN in JavaScript (embedded as `none`),
not the value 0 the specification requires. -/
theorem frameDiff_empty_nan :
    calculateFrameDifference [] [] = none := by decide

/-- `Math.min(w - 1, Math.max(0, i))`: clamped (edge-replicating) index
into a row or column of length `n`, as used in `boxBlur`. -/
def clampIdx (n : ℕ) (i : ℤ) : ℕ := (min ((n : ℤ) - 1) (max 0 i)).toNat

/-- The `count` accumulated by the blur loops: one per `k ∈ [-radius, radius]`. -/
def blurCount (radius : ℕ) : ℕ := 2 * radius + 1

/-- Horizontal pass of `boxBlur` (src/unnamed/part_000 lines 123–135):
`temp[y*w + x] = (∑ data[y*w + clamp(x+k)]) / count`.  The raster is a
row-major single-channel buffer, embedded as a function on flat indices. -/
def blurH (data : ℕ → ℚ) (w radius : ℕ) (x y : ℕ) : ℚ :=
  (∑ k ∈ Finset.Icc (-(radius : ℤ)) (radius : ℤ),
    data (y * w + clampIdx w ((x : ℤ) + k))) / (blurCount radius : ℚ)

/-- `boxBlur` (src/unnamed/part_000 lines 115–152), value of the output
raster at sample (x, y): the vertical pass over the horizontal pass's
output, with clamped row indices. -/
def boxBlur (data : ℕ → ℚ) (w h radius : ℕ) (x y : ℕ) : ℚ :=
  (∑ k ∈ Finset.Icc (-(radius : ℤ)) (radius : ℤ),
    blurH data w radius x (clampIdx h ((y : ℤ) + k))) / (blurCount radius : ℚ)

lemma card_Icc_radius (radius : ℕ) :
    (Finset.Icc (-(radius : ℤ)) (radius : ℤ)).card = blurCount radius := by
  rw [Int.card_Icc, blurCount]
  omega

lemma clampIdx_lt {n : ℕ} (hn : 0 < n) (i : ℤ) : clampIdx n i < n := by
  unfold clampIdx
  omega

lemma flatIdx_lt {w h x y : ℕ} (hx : x < w) (hy : y < h) : y * w + x < w * h :=
  calc y * w + x < y * w + w := by omega
  _ = (y + 1) * w := by ring
  _ ≤ h * w := Nat.mul_le_mul_right w hy
  _ = w * h := Nat.mul_comm h w

lemma blurH_const {data : ℕ → ℚ} {w h : ℕ} {v : ℚ} (hw : 0 < w) (hh : 0 < h)
    (hd : ∀ i, i < w * h → data i = v) (radius x : ℕ) {y : ℕ} (hy : y < h) :
    blurH data w radius x y = v := by
  unfold blurH
  have hterm : ∀ k ∈ Finset.Icc (-(radius : ℤ)) (radius : ℤ),
      data (y * w + clampIdx w ((x : ℤ) + k)) = v := by
    intro k _
    exact hd _ (flatIdx_lt (clampIdx_lt hw _) hy)
  rw [Finset.sum_congr rfl hterm, Finset.sum_const, card_Icc_radius,
    nsmul_eq_mul]
  have hc : ((blurCount radius : ℚ)) ≠ 0 := by
    unfold blurCount
    push_cast
    positivity
  field_simp

lemma boxBlur_const {data : ℕ → ℚ} {w h : ℕ} {v : ℚ} (hw : 0 < w) (hh : 0 < h)
    (hd : ∀ i, i < w * h → data i = v) (radius x y : ℕ) :
    boxBlur data w h radius x y = v := by
  unfold boxBlur
  have hterm : ∀ k ∈ Finset.Icc (-(radius : ℤ)) (radius : ℤ),
      blurH data w radius x (clampIdx h ((y : ℤ) + k)) = v := by
    intro k _
    exact blurH_const hw hh hd radius x (clampIdx_lt hh _)
  rw [Finset.sum_congr rfl hterm, Finset.sum_const, card_Icc_radius,
    nsmul_eq_mul]
  have hc : ((blurCount radius : ℚ)) ≠ 0 := by
    unfold blurCount
    push_cast
    positivity
  field_simp

/-- C8: box-blurring a uniform raster returns the same uniform value at
every in-range sample, for every radius (including the 1×1 raster):
thanks to clamped edge replication every window sample equals `v`, and
the mean of `2·radius + 1` copies of `v` is `v` in each pass. -/
theorem boxBlur_uniform (data : ℕ → ℚ) (w h radius x y : ℕ) (v : ℚ)
    (hw : 1 ≤ w) (hh : 1 ≤ h) (hd : ∀ i, i < w * h → data i = v)
    (hx : x < w) (hy : y < h) :
    boxBlur data w h radius x y = v :=
  boxBlur_const hw hh hd radius x y

/-- C8 (witness): a 1×1 raster of constant value 7 at radius 1 blurs to 7. -/
theorem boxBlur_uniform_witness :
    ((1 : ℕ) ≤ 1 ∧ (0 : ℕ) < 1 ∧
      (∀ i, i < 1 * 1 → (fun _ : ℕ => (7 : ℚ)) i = 7)) ∧
      boxBlur (fun _ => (7 : ℚ)) 1 1 1 0 0 = 7 :=
  ⟨⟨le_refl 1, Nat.zero_lt_one, fun _ _ => rfl⟩,
    boxBlur_uniform (fun _ => (7 : ℚ)) 1 1 1 0 0 7 (le_refl 1) (le_refl 1)
      (fun _ _ => rfl) Nat.zero_lt_one Nat.zero_lt_one⟩

/-- Luminance conversion `0.299·R + 0.587·G + 0.114·B`
(src/unnamed/part_000 line 58). -/
def luminance (r g b : ℚ) : ℚ := 299/1000 * r + 587/1000 * g + 114/1000 * b

/-- The grayscale buffer `grayData[i/4]` built from the RGBA buffer
(src/unnamed/part_000 lines 56–60). -/
def grayData (rgba : ℕ → ℚ) (p : ℕ) : ℚ :=
  luminance (rgba (4 * p)) (rgba (4 * p + 1)) (rgba (4 * p + 2))

/-- Fixed blur radius of the sketch pipeline (src/unnamed/part_000 line 66). -/
def blurRadius : ℕ := 4

/-- Color-dodge step (src/unnamed/part_000 lines 89–94): saturate to 255
when `blend == 255`, else `min(255, base·255 / (255 - blend))`. -/
def colorDodge (base blend : ℚ) : ℚ :=
  if blend = 255 then 255 else min 255 (base * 255 / (255 - blend))

/-- The sketch-synthesis value written to the R, G and B channels of the
output pixel (x, y) by `applySketchEffect` (src/unnamed/part_000 lines
81–104): base = grayscale, blend = 255 − blurred grayscale, then
color dodge. -/
def sketchPixel (rgba : ℕ → ℚ) (w h x y : ℕ) : ℚ :=
  colorDodge (grayData rgba (y * w + x))
    (255 - boxBlur (grayData rgba) w h blurRadius x y)

lemma sketch_black_pixel {rgba : ℕ → ℚ} {w h : ℕ}
    (hR : ∀ p, rgba (4 * p) = 0) (hG : ∀ p, rgba (4 * p + 1) = 0)
    (hB : ∀ p, rgba (4 * p + 2) = 0) (hw : 0 < w) (hh : 0 < h) (x y : ℕ) :
    sketchPixel rgba w h x y = 255 := by
  have hgray : ∀ p, grayData rgba p = 0 := by
    intro p
    unfold grayData luminance
    rw [hR, hG, hB]
    ring
  unfold sketchPixel
  rw [boxBlur_const hw hh (fun i _ => hgray i) blurRadius x y]
  unfold colorDodge
  norm_num

/-- C2 (counterexample): on a 1×1 uniformly black image the sketch
pipeline outputs 255, not 0: the inverted blurred grayscale is exactly
255 everywhere, so the color-dodge saturate branch fires. -/
theorem sketch_black_cex :
    sketchPixel (fun _ => 0) 1 1 0 0 ≠ 0 := by
  rw [sketch_black_pixel (fun _ => rfl) (fun _ => rfl) (fun _ => rfl)
    Nat.zero_lt_one Nat.zero_lt_one 0 0]
  norm_num

/-- C2 (amended): for every uniformly black input image (R = G = B = 0 at
every pixel), the sketch pipeline produces an output that is uniformly
255 (white), because blend = 255 − blur(0) = 255 makes the color-dodge
saturate branch fire at every pixel. -/
theorem sketch_uniform_black (rgba : ℕ → ℚ) (w h x y : ℕ)
    (hR : ∀ p, rgba (4 * p) = 0) (hG : ∀ p, rgba (4 * p + 1) = 0)
    (hB : ∀ p, rgba (4 * p + 2) = 0) (hw : 0 < w) (hh : 0 < h)
    (hx : x < w) (hy : y < h) :
    sketchPixel rgba w h x y = 255 :=
  sketch_black_pixel hR hG hB hw hh x y

/-- C2 (witness): the amended claim instantiated on the 1×1 black image. -/
theorem sketch_uniform_black_witness :
    ((∀ p : ℕ, (fun _ : ℕ => (0 : ℚ)) (4 * p) = 0) ∧ (0 : ℕ) < 1) ∧
      sketchPixel (fun _ => 0) 1 1 0 0 = 255 :=
  ⟨⟨fun _ => rfl, Nat.zero_lt_one⟩,
    sketch_uniform_black (fun _ => 0) 1 1 0 0 (fun _ => rfl) (fun _ => rfl)
      (fun _ => rfl) Nat.zero_lt_one Nat.zero_lt_one Nat.zero_lt_one
      Nat.zero_lt_one⟩

/-- Loop body of `wrapText` (src/unnamed/part_001 lines 156–179).  The
rendering context's `measureText` is abstracted as a width function on
character lists.  State: remaining characters, the loop index `n`, the
accumulated `line`, and `lineCount`.  Returns the list of lines passed to
`fillText`, in order: a flush inside the loop when the test line
overflows (`testWidth > maxWidth && n > 0`), a break once
`lineCount > 4`, and always one final flush after the loop. -/
def wrapTextAux (measure : List Char → ℚ) (maxWidth : ℚ) :
    List Char → ℕ → List Char → ℕ → List (List Char)
  | [], _, line, _ => [line]
  | c :: rest, n, line, lineCount =>
    if measure (line ++ [c]) > maxWidth ∧ 0 < n then
      if lineCount + 1 > 4 then [line, [c]]
      else line :: wrapTextAux measure maxWidth rest (n + 1) [c] (lineCount + 1)
    else wrapTextAux measure maxWidth rest (n + 1) (line ++ [c]) lineCount

/-- `wrapText`: the sequence of drawn lines for a caption. -/
def wrapText (measure : List Char → ℚ) (text : List Char) (maxWidth : ℚ) :
    List (List Char) :=
  wrapTextAux measure maxWidth text 0 [] 0

lemma wrapTextAux_length_le (measure : List Char → ℚ) (maxWidth : ℚ) :
    ∀ (chars : List Char) (n : ℕ) (line : List Char) (lineCount : ℕ),
      lineCount ≤ 4 →
      (wrapTextAux measure maxWidth chars n line lineCount).length
        ≤ 6 - lineCount := by
  intro chars
  induction chars with
  | nil =>
    intro n line lc hlc
    simp only [wrapTextAux, List.length_singleton]
    omega
  | cons c rest ih =>
    intro n line lc hlc
    unfold wrapTextAux
    split
    · split
      · simp only [List.length_cons, List.length_nil]
        omega
      · have hrec := ih (n + 1) [c] (lc + 1) (by omega)
        simp only [List.length_cons]
        omega
    · have hrec := ih (n + 1) (line ++ [c]) lc hlc
      exact hrec

/-- C3 (counterexample): with the unit-width measure, a six-character
caption and available width 1, `wrapText` draws 6 lines, not at most 5:
five flushes happen inside the loop before the break, and the final
unconditional flush after the loop draws a sixth line. -/
theorem wrapText_five_lines_cex :
    (0 : ℚ) < 1 ∧
      (wrapText (fun l => (l.length : ℚ)) (List.replicate 6 'a') 1).length
        = 6 := by
  constructor
  · norm_num
  · norm_num [wrapText, wrapTextAux, List.replicate]

/-- C3 (amended): for every caption and every available width, `wrapText`
draws at most 6 lines of text: the in-loop flush counter breaks the loop
once 5 lines have been flushed, and the final flush after the loop can
draw one further line; characters remaining after the break are silently
truncated. -/
theorem wrapText_line_bound (measure : List Char → ℚ) (text : List Char)
    (maxWidth : ℚ) :
    (wrapText measure text maxWidth).length ≤ 6 :=
  wrapTextAux_length_le measure maxWidth text 0 [] 0 (by omega)

/-- Scene-change threshold (FrameGallery.tsx line 141). -/
def threshold : ℚ := 15

/-- The keyframe test `diff > threshold` for a non-first sample
(FrameGallery.tsx lines 178–181).  A NaN metric value (embedded `none`)
compares false, as in JavaScript. -/
def diffExceeds (lastBuf buf : List ℕ) : Bool :=
  match calculateFrameDifference lastBuf buf with
  | none => false
  | some q => decide (threshold < q)

/-- The fixed sample interval `sampleRate = 0.5` (FrameGallery.tsx line 140). -/
def sampleInterval : ℚ := 1 / 2

/-- The sampling loop of `VideoProcessor.processInterval`
(FrameGallery.tsx lines 146–219), embedded over its iteration count: at
each sample time `t` the low-res buffer `frame t` is read; with no
previously accepted buffer the sample is unconditionally a keyframe,
otherwise it is one iff `diffExceeds`; on acceptance the accepted buffer
is replaced by the current one and the sample time is recorded.  Returns
the accepted keyframe times in order. -/
def extractSamples (frame : ℚ → List ℕ) : ℕ → ℚ → Option (List ℕ) → List ℚ
  | 0, _, _ => []
  | n + 1, t, none =>
    t :: extractSamples frame n (t + sampleInterval) (some (frame t))
  | n + 1, t, some lb =>
    if diffExceeds lb (frame t) then
      t :: extractSamples frame n (t + sampleInterval) (some (frame t))
    else
      extractSamples frame n (t + sampleInterval) (some lb)

/-- Number of iterations of the loop `while processedTime < duration`
starting at 0 and stepping by 0.5: the count of naturals k with
k/2 < d, which is ⌈2·d⌉ (0 for non-positive duration). -/
def numSamples (d : ℚ) : ℕ := ⌈2 * d⌉₊

/-- A whole extraction run: the ordered keyframe times delivered to
`onProcessingComplete`. -/
def extractKeyframes (frame : ℚ → List ℕ) (d : ℚ) : List ℚ :=
  extractSamples frame (numSamples d) 0 none

lemma absDiff_self (a : ℕ) : absDiff a a = 0 := by
  unfold absDiff
  omega

lemma frameDiffSum_self (b : List ℕ) : frameDiffSum b b = 0 := by
  unfold frameDiffSum
  exact Finset.sum_eq_zero fun j _ => by
    rw [absDiff_self, absDiff_self, absDiff_self]
    rfl

lemma diffExceeds_self (b : List ℕ) : diffExceeds b b = false := by
  unfold diffExceeds calculateFrameDifference
  rw [frameDiffSum_self]
  by_cases hb : b.length = 0
  · simp [hb]
  · rw [if_neg hb]
    simp only [Nat.cast_zero, zero_div]
    simp only [decide_eq_false_iff_not, threshold, not_lt]
    norm_num

lemma extractSamples_const {frame : ℚ → List ℕ} {c : List ℕ}
    (hc : ∀ t, frame t = c) :
    ∀ (n : ℕ) (t : ℚ), extractSamples frame n t (some c) = [] := by
  intro n
  induction n with
  | zero => intro t; rfl
  | succ n ih =>
    intro t
    unfold extractSamples
    rw [hc t, diffExceeds_self]
    simp only [Bool.false_eq_true, if_false]
    exact ih (t + sampleInterval)

/-- C5: the first sample of an extraction run is unconditionally accepted
(the delivered list starts with time 0), and for a source whose every
sampled low-res buffer is identical, exactly one keyframe — the first
sample — is emitted, whatever the duration: every later sample has
difference 0 ≤ 15 from the accepted buffer and is rejected. -/
theorem extract_first_sample_and_constant_source (frame : ℚ → List ℕ)
    (d : ℚ) (c : List ℕ) :
    (0 < numSamples d → (extractKeyframes frame d).head? = some 0) ∧
      ((∀ t, frame t = c) → 0 < numSamples d →
        extractKeyframes frame d = [0]) := by
  constructor
  · intro hpos
    obtain ⟨n, hn⟩ : ∃ n, numSamples d = n + 1 :=
      ⟨numSamples d - 1, by omega⟩
    unfold extractKeyframes
    rw [hn]
    rfl
  · intro hc hpos
    obtain ⟨n, hn⟩ : ∃ n, numSamples d = n + 1 :=
      ⟨numSamples d - 1, by omega⟩
    unfold extractKeyframes
    rw [hn]
    unfold extractSamples
    rw [hc 0, extractSamples_const hc]

/-- C5 (witness): a constant source of duration 3 s (6 samples) yields
exactly the single keyframe at time 0. -/
theorem extract_constant_source_witness :
    ((∀ t : ℚ, (fun _ : ℚ => ([] : List ℕ)) t = []) ∧ 0 < numSamples 3) ∧
      extractKeyframes (fun _ => ([] : List ℕ)) 3 = [0] := by
  have hpos : 0 < numSamples 3 := by
    unfold numSamples
    norm_num
  exact ⟨⟨fun _ => rfl, hpos⟩,
    (extract_first_sample_and_constant_source (fun _ => ([] : List ℕ)) 3 []).2
      (fun _ => rfl) hpos⟩

lemma extractSamples_chain (frame : ℚ → List ℕ) :
    ∀ (n : ℕ) (t : ℚ) (last : Option (List ℕ)),
      List.Chain' (fun a b => a + sampleInterval ≤ b)
          (extractSamples frame n t last) ∧
        ∀ x ∈ extractSamples frame n t last, t ≤ x := by
  have hsi : (0 : ℚ) ≤ sampleInterval := by
    unfold sampleInterval
    norm_num
  intro n
  induction n with
  | zero =>
    intro t last
    cases last <;> exact ⟨List.chain'_nil, by simp [extractSamples]⟩
  | succ n ih =>
    intro t last
    have haccept : List.Chain' (fun a b => a + sampleInterval ≤ b)
        (t :: extractSamples frame n (t + sampleInterval) (some (frame t))) ∧
        ∀ x ∈ t :: extractSamples frame n (t + sampleInterval) (some (frame t)),
          t ≤ x := by
      obtain ⟨hchain, hmem⟩ := ih (t + sampleInterval) (some (frame t))
      constructor
      · refine List.chain'_cons'.mpr ⟨fun y hy => ?_, hchain⟩
        exact hmem y (List.mem_of_mem_head? hy)
      · intro x hx
        rcases List.mem_cons.mp hx with h | h
        · exact h.ge
        · linarith [hmem x h]
    cases last with
    | none => exact haccept
    | some lb =>
      unfold extractSamples
      split
      · exact haccept
      · obtain ⟨hchain, hmem⟩ := ih (t + sampleInterval) (some lb)
        exact ⟨hchain, fun x hx => by linarith [hmem x hx]⟩

/-- C7: the keyframe time sequence delivered by an extraction run is
strictly increasing, and consecutive keyframe times differ by at least
the sample interval (0.5 s). -/
theorem extract_times_strict_mono (frame : ℚ → List ℕ) (d : ℚ) :
    List.Chain' (fun a b => a < b ∧ a + sampleInterval ≤ b)
      (extractKeyframes frame d) := by
  have h := (extractSamples_chain frame (numSamples d) 0 none).1
  refine List.Chain'.imp (fun a b hab => ⟨?_, hab⟩) h
  have : (0 : ℚ) < sampleInterval := by
    unfold sampleInterval
    norm_num
  linarith

/-- Frames per storyboard page: 4 columns × 3 rows
(src/unnamed/part_001 line 13). -/
def framesPerPage : ℕ := 12

/-- The page loop of `generateStoryboardImages` (src/unnamed/part_001
lines 56–151), embedded as the page contents it renders: page after page
takes the next 12 frames (`frames.slice(i, i + 12)`), and cell `j` of the
page starting at index `i` is drawn with shot number `i + j + 1` (line
136).  Each page is the list of (shot number, frame) pairs of its
occupied cells.  The fuel argument bounds the recursion by the list
length; each step consumes at least one frame, so fuel = initial length
reproduces the loop exactly. -/
def storyboardGo {α : Type} : ℕ → List α → ℕ → List (List (ℕ × α))
  | 0, _, _ => []
  | _ + 1, [], _ => []
  | fuel + 1, a :: rest, i =>
    List.enumFrom (i + 1) ((a :: rest).take framesPerPage)
      :: storyboardGo fuel ((a :: rest).drop framesPerPage) (i + framesPerPage)

/-- The full pagination of a keyframe list. -/
def generateStoryboardImages {α : Type} (frames : List α) :
    List (List (ℕ × α)) :=
  storyboardGo frames.length frames 0

lemma storyboardGo_length {α : Type} :
    ∀ (fuel : ℕ) (l : List α) (i : ℕ), l.length ≤ fuel →
      (storyboardGo fuel l i).length = (l.length + 11) / 12 := by
  intro fuel
  induction fuel with
  | zero =>
    intro l i hl
    obtain rfl : l = [] := List.length_eq_zero.mp (by omega)
    simp [storyboardGo]
  | succ fuel ih =>
    intro l i hl
    cases l with
    | nil => simp [storyboardGo]
    | cons a rest =>
      have hdrop : ((a :: rest).drop framesPerPage).length ≤ fuel := by
        rw [List.length_drop]
        simp only [List.length_cons] at hl ⊢
        unfold framesPerPage
        omega
      simp only [storyboardGo, List.length_cons,
        ih ((a :: rest).drop framesPerPage) (i + framesPerPage) hdrop,
        List.length_drop, List.length_cons]
      unfold framesPerPage
      omega

lemma storyboardGo_frames {α : Type} :
    ∀ (fuel : ℕ) (l : List α) (i : ℕ), l.length ≤ fuel →
      ((storyboardGo fuel l i).map (fun p => p.map Prod.snd)).flatten = l := by
  intro fuel
  induction fuel with
  | zero =>
    intro l i hl
    obtain rfl : l = [] := List.length_eq_zero.mp (by omega)
    simp [storyboardGo]
  | succ fuel ih =>
    intro l i hl
    cases l with
    | nil => simp [storyboardGo]
    | cons a rest =>
      have hdrop : ((a :: rest).drop framesPerPage).length ≤ fuel := by
        rw [List.length_drop]
        simp only [List.length_cons] at hl ⊢
        unfold framesPerPage
        omega
      simp only [storyboardGo, List.map_cons, List.flatten_cons,
        List.enumFrom_map_snd,
        ih ((a :: rest).drop framesPerPage) (i + framesPerPage) hdrop]
      exact List.take_append_drop framesPerPage (a :: rest)

lemma storyboardGo_numbers {α : Type} :
    ∀ (fuel : ℕ) (l : List α) (i : ℕ), l.length ≤ fuel →
      ((storyboardGo fuel l i).map (fun p => p.map Prod.fst)).flatten
        = List.range' (i + 1) l.length := by
  intro fuel
  induction fuel with
  | zero =>
    intro l i hl
    obtain rfl : l = [] := List.length_eq_zero.mp (by omega)
    simp [storyboardGo]
  | succ fuel ih =>
    intro l i hl
    cases l with
    | nil => simp [storyboardGo]
    | cons a rest =>
      have hdrop : ((a :: rest).drop framesPerPage).length ≤ fuel := by
        rw [List.length_drop]
        simp only [List.length_cons] at hl ⊢
        unfold framesPerPage
        omega
      simp only [storyboardGo, List.map_cons, List.flatten_cons,
        List.enumFrom_map_fst, List.length_take,
        ih ((a :: rest).drop framesPerPage) (i + framesPerPage) hdrop,
        List.length_drop]
      rcases le_or_lt (a :: rest).length framesPerPage with hle | hlt
      · rw [Nat.min_eq_right hle, Nat.sub_eq_zero_of_le hle]
        simp
      · rw [Nat.min_eq_left hlt.le]
        have h12 : i + framesPerPage + 1 = (i + 1) + framesPerPage := by
          omega
        rw [h12, List.range'_append_1]
        congr 1
        unfold framesPerPage at hlt ⊢
        omega

/-- C6: the storyboard compositor partitions the keyframe list into
contiguous chunks of 12 in original order, producing ⌈n/12⌉ pages whose
cells carry globally sequential shot numbers 1, 2, …, n; in particular
12 keyframes fill exactly 1 page, and 13 keyframes produce 2 pages with
the second containing exactly 1 occupied cell. -/
theorem storyboard_pagination {α : Type} (frames : List α) :
    (generateStoryboardImages frames).length = (frames.length + 11) / 12 ∧
      ((generateStoryboardImages frames).map
        (fun p => p.map Prod.snd)).flatten = frames ∧
      ((generateStoryboardImages frames).map
        (fun p => p.map Prod.fst)).flatten = List.range' 1 frames.length ∧
      (generateStoryboardImages (List.range 12)).length = 1 ∧
      (generateStoryboardImages (List.range 13)).length = 2 ∧
      ((generateStoryboardImages (List.range 13)).getD 1 []).length = 1 := by
  refine ⟨storyboardGo_length frames.length frames 0 le_rfl,
    storyboardGo_frames frames.length frames 0 le_rfl,
    storyboardGo_numbers frames.length frames 0 le_rfl,
    by decide, by decide, by decide⟩

/-- The four placement values computed by the compositor's cover-fit
logic. -/
structure Placement where
  drawW : ℚ
  drawH : ℚ
  offX : ℚ
  offY : ℚ

/-- Cover-fit placement (src/unnamed/part_001 lines 100–117): compare
`imgAspect = img.width / img.height` with
`boxAspect = imageWidth / imageAreaHeight`; the wider side fills, the
other axis is center-cropped. -/
def coverFit (imgW imgH boxW boxH : ℚ) : Placement :=
  if boxW / boxH < imgW / imgH then
    { drawW := boxH * (imgW / imgH), drawH := boxH,
      offX := (boxW - boxH * (imgW / imgH)) / 2, offY := 0 }
  else
    { drawW := boxW, drawH := boxW / (imgW / imgH), offX := 0,
      offY := (boxH - boxW / (imgW / imgH)) / 2 }

/-- C9: for an image strictly wider (in aspect) than the box, cover-fit
draws at full box height, at width boxH · imageAspect which exceeds the
box width, with a negative horizontal offset (boxW − drawW)/2 that
centers the image horizontally (offX + drawW/2 = boxW/2). -/
theorem coverFit_wide_image (imgW imgH boxW boxH : ℚ)
    (himgW : 0 < imgW) (himgH : 0 < imgH) (hboxW : 0 < boxW)
    (hboxH : 0 < boxH) (hasp : boxW / boxH < imgW / imgH) :
    (coverFit imgW imgH boxW boxH).drawH = boxH ∧
      (coverFit imgW imgH boxW boxH).drawW = boxH * (imgW / imgH) ∧
      boxW < (coverFit imgW imgH boxW boxH).drawW ∧
      (coverFit imgW imgH boxW boxH).offX
        = (boxW - (coverFit imgW imgH boxW boxH).drawW) / 2 ∧
      (coverFit imgW imgH boxW boxH).offX < 0 ∧
      (coverFit imgW imgH boxW boxH).offX
          + (coverFit imgW imgH boxW boxH).drawW / 2 = boxW / 2 := by
  unfold coverFit
  rw [if_pos hasp]
  have hwide : boxW < boxH * (imgW / imgH) := by
    have := (div_lt_iff₀ hboxH).mp hasp
    linarith
  refine ⟨rfl, rfl, hwide, rfl, ?_, by ring⟩
  have hneg : boxW - boxH * (imgW / imgH) < 0 := by linarith
  exact div_neg_of_neg_of_pos hneg (by norm_num)

/-- C9 (witness): a 16:9 image into a 4:3 box: drawn 3 high and 16/3
wide, offset −2/3, centered. -/
theorem coverFit_wide_image_witness :
    ((0 : ℚ) < 16 ∧ (0 : ℚ) < 9 ∧ (0 : ℚ) < 4 ∧ (0 : ℚ) < 3 ∧
      (4 : ℚ) / 3 < 16 / 9) ∧
      ((coverFit 16 9 4 3).drawH = 3 ∧
        (coverFit 16 9 4 3).drawW = 3 * (16 / 9) ∧
        (4 : ℚ) < (coverFit 16 9 4 3).drawW ∧
        (coverFit 16 9 4 3).offX = (4 - (coverFit 16 9 4 3).drawW) / 2 ∧
        (coverFit 16 9 4 3).offX < 0 ∧
        (coverFit 16 9 4 3).offX + (coverFit 16 9 4 3).drawW / 2
          = (4 : ℚ) / 2) :=
  ⟨⟨by norm_num, by norm_num, by norm_num, by norm_num, by norm_num⟩,
    coverFit_wide_image 16 9 4 3 (by norm_num) (by norm_num) (by norm_num)
      (by norm_num) (by norm_num)⟩

/-- `padStart(2, '0')` on the seconds string. -/
def padStart2 (s : String) : String :=
  if 2 ≤ s.length then s else if s.length = 1 then "0" ++ s else "00"

/-- `formatTime` (src/unnamed/part_002 lines 25–30): minutes are
`Math.floor(seconds / 60)`, seconds are `Math.floor(seconds % 60)`,
zero-padded to two digits.  Embedded for the finite non-negative sample
times the extractor produces. -/
def formatTime (seconds : ℚ) : String :=
  toString ⌊seconds / 60⌋ ++ ":"
    ++ padStart2 (toString (⌊seconds⌋ - 60 * ⌊seconds / 60⌋))

/-- The `safeDesc` computation of `handleExportTable`
(src/unnamed/part_002 line 175): a present, non-empty caption is quoted
with internal quotes doubled; an absent caption (and, by JavaScript
truthiness, an empty one) yields the empty field. -/
def csvField (caption : Option String) : String :=
  match caption with
  | none => ""
  | some c => if c = "" then "" else "\"" ++ c.replace "\"" "\"\"" ++ "\""

/-- One CSV line `index+1,timecode,safeDesc\n`
(src/unnamed/part_002 line 177). -/
def csvRow (index : ℕ) (time : ℚ) (caption : Option String) : String :=
  toString (index + 1) ++ "," ++ formatTime time ++ ","
    ++ csvField caption ++ "\n"

/-- The BOM and header line of the CSV (src/unnamed/part_002 lines
170–171). -/
def csvHeader : String := "﻿" ++ "Shot No.,Timecode,Description\n"

/-- `handleExportTable` (src/unnamed/part_002 lines 167–186): header plus
one row per keyframe, indexed from 0. -/
def handleExportTable (frames : List (ℚ × Option String)) : String :=
  csvHeader ++ String.join (frames.enum.map fun e => csvRow e.1 e.2.1 e.2.2)

/-- C10: a keyframe with an absent caption is exported as
`shotNo,timecode,` followed by a newline — the Description field is the
empty string, unquoted and with no placeholder, while the shot number
and timecode are still emitted; the exported CSV contains exactly that
row for such a frame. -/
theorem csv_missing_caption (i : ℕ) (t : ℚ) :
    csvRow i t none
        = toString (i + 1) ++ "," ++ formatTime t ++ "," ++ "\n" ∧
      handleExportTable [(t, none)] = csvHeader ++ csvRow 0 t none := by
  constructor
  · unfold csvRow csvField
    rw [String.append_empty]
  · unfold handleExportTable
    simp [String.join, List.enum]

end StoryboardCore
